import Mathlib

/-!
Verification of `src/sigid_csv_to_json.py`.

The program reads `db.csv` line by line, splits each line on the `*`
character, keeps records with more than 7 fields whose parsed frequency
bounds are not both zero (printing a diagnostic for the zero-zero case),
sorts the retained records by decreasing bandwidth with the stable sort of Python, and serializes them as a JSON array with `json.dump(out, f,
sort_keys=True)`.

The embedding below works on `List Char` so that every definition is
executable by kernel reduction.  Python builtins used by the script
(`str.split`, `int`, `str` of a dict, `json.dump`, `json.loads`) are
modelled explicitly; the models are restricted to ASCII-faithful behavior
where CPython consults the Unicode database (noted at each definition).
-/

namespace Sigid

/-- One output entry, as built on line 14-15 of the source:
`{"freqStart": freqStart, "freqStop": freqStop, "description": description, "url": url}`. -/
structure Record where
  description : String
  freqStart : Int
  freqStop : Int
  url : String
deriving DecidableEq

/-- Python `line.split('*')`: split a character list at every `'*'`,
keeping empty fields; the result is always nonempty. -/
def splitStar : List Char → List (List Char)
  | [] => [[]]
  | c :: rest =>
    match splitStar rest with
    | [] => []
    | f :: fs => if c = '*' then [] :: f :: fs else (c :: f) :: fs

/-- Strip leading and trailing whitespace, as Python `int()` does before
parsing (modelled with ASCII whitespace). -/
def pyStrip (cs : List Char) : List Char :=
  ((cs.dropWhile Char.isWhitespace).reverse.dropWhile Char.isWhitespace).reverse

/-- Numeric value of a list of decimal digit characters. -/
def digitsVal (cs : List Char) : Nat :=
  cs.foldl (fun a c => 10 * a + (c.toNat - 48)) 0

/-- Python `int(s)` on the characters of `s`: strip whitespace, optional
sign, then a nonempty run of decimal digits; `none` models a raised
`ValueError`.  (CPython additionally accepts `_` digit grouping and
non-ASCII decimal digits; the input fields of the script are ASCII decimals.) -/
def pyInt (cs : List Char) : Option Int :=
  match pyStrip cs with
  | [] => none
  | c :: ds =>
    if c = '+' then
      if ds ≠ [] ∧ ds.all Char.isDigit then some (digitsVal ds : Int) else none
    else if c = '-' then
      if ds ≠ [] ∧ ds.all Char.isDigit then some (-(digitsVal ds : Int)) else none
    else
      if (c :: ds).all Char.isDigit then some (digitsVal (c :: ds) : Int) else none

/-- Single-quote character, used by Python `repr` of strings. -/
def sq : Char := Char.ofNat 39

/-- Hexadecimal digit character (lowercase), for escape sequences. -/
def hexDig (n : Nat) : Char :=
  if n < 10 then Char.ofNat (48 + n) else Char.ofNat (87 + n)

/-- Four-digit lowercase hex rendering of `n < 65536`. -/
def hex4 (n : Nat) : List Char :=
  [hexDig (n / 4096 % 16), hexDig (n / 256 % 16), hexDig (n / 16 % 16), hexDig (n % 16)]

/-- Python `repr` escaping of one character inside quote character `q`.
Modelled from the spec: CPython decides printability from the Unicode
database; here every ASCII-printable character is kept literal and
everything else is escaped. -/
def pyEscC (q : Char) (c : Char) : List Char :=
  if c = '\\' then ['\\', '\\']
  else if c = q then ['\\', q]
  else if c = '\n' then ['\\', 'n']
  else if c = '\r' then ['\\', 'r']
  else if c = '\t' then ['\\', 't']
  else if 32 ≤ c.toNat ∧ c.toNat ≤ 126 then [c]
  else if c.toNat < 256 then ['\\', 'x', hexDig (c.toNat / 16 % 16), hexDig (c.toNat % 16)]
  else if c.toNat < 65536 then '\\' :: 'u' :: hex4 c.toNat
  else '\\' :: 'U' :: [hexDig (c.toNat / 268435456 % 16), hexDig (c.toNat / 16777216 % 16),
    hexDig (c.toNat / 1048576 % 16), hexDig (c.toNat / 65536 % 16)] ++ hex4 (c.toNat % 65536)

/-- Python `repr(s)` for a string `s`: single quotes unless `s` contains a
single quote and no double quote. -/
def pyRepr (s : String) : String :=
  let q : Char := if s.data.contains sq ∧ ¬ s.data.contains '"' then '"' else sq
  (q :: (s.data.flatMap (pyEscC q)) ++ [q]).asString

/-- Decimal digits of `n`, most significant first. -/
def natDigits (n : Nat) : List Char :=
  if n < 10 then [Char.ofNat (48 + n)] else natDigits (n / 10) ++ [Char.ofNat (48 + n % 10)]
termination_by n
decreasing_by omega

/-- Characters of Python `repr` of an integer. -/
def intChars (i : Int) : List Char :=
  if i < 0 then '-' :: natDigits i.natAbs else natDigits i.toNat

/-- Python `str(current)` for the dict built on line 15, keys in insertion
order `freqStart, freqStop, description, url`. -/
def pyStrRecord (r : Record) : String :=
  "\x7b" ++ pyRepr "freqStart" ++ ": " ++ (intChars r.freqStart).asString ++
  ", " ++ pyRepr "freqStop" ++ ": " ++ (intChars r.freqStop).asString ++
  ", " ++ pyRepr "description" ++ ": " ++ pyRepr r.description ++
  ", " ++ pyRepr "url" ++ ": " ++ pyRepr r.url ++ "\x7d"

/-- Outcome of the loop body (source lines 12-20) on a single line. -/
inductive LineResult where
  | short
  | parseFail
  | skipped (r : Record)
  | kept (r : Record)
deriving DecidableEq

/-- The loop body of `main` on one line: split on `*`; with more than 7
fields parse fields 1 and 2 as integers (`parseFail` models the
uncaught `ValueError`), build the record from fields 0, 1, 2, 7, and
keep it unless both frequencies are zero. -/
def processLine (line : String) : LineResult :=
  let data := splitStar line.data
  if data.length > 7 then
    match pyInt (data.getD 1 []), pyInt (data.getD 2 []) with
    | some freqStart, some freqStop =>
      let current : Record :=
        ⟨(data.getD 0 []).asString, freqStart, freqStop, (data.getD 7 []).asString⟩
      if freqStart ≠ 0 ∨ freqStop ≠ 0 then .kept current else .skipped current
    | _, _ => .parseFail
  else .short

/-- The record a line contributes to `out`, if any. -/
def lineOut (line : String) : Option Record :=
  match processLine line with
  | .kept r => some r
  | _ => none

/-- The diagnostic a line prints to standard output, if any
(source line 20: `print("Skipping: " + str(current))`). -/
def lineDiag (line : String) : Option String :=
  match processLine line with
  | .skipped r => some ("Skipping: " ++ pyStrRecord r)
  | _ => none

/-- The whole reading loop of `main`: the accumulated `out` list and the
lines printed to standard output, or `none` when an uncaught parse
error aborts the program. -/
def processLines : List String → Option (List Record × List String)
  | [] => some ([], [])
  | l :: ls =>
    match processLine l with
    | .short => processLines ls
    | .parseFail => none
    | .kept r =>
      match processLines ls with
      | none => none
      | some (o, d) => some (r :: o, d)
    | .skipped r =>
      match processLines ls with
      | none => none
      | some (o, d) => some (o, ("Skipping: " ++ pyStrRecord r) :: d)

/-- Sort key of line 24: `x["freqStop"] - x["freqStart"]`. -/
def bandwidth (r : Record) : Int := r.freqStop - r.freqStart

/-- Line 24: `out.sort(key=lambda x: ..., reverse=True)`; the sort of Python is
stable, and `reverse=True` reverses the comparison, not the list, so this
is the stable sort by decreasing bandwidth. -/
def sortRecords (out : List Record) : List Record :=
  out.mergeSort fun a b => decide (bandwidth b ≤ bandwidth a)

/-- `main` up to the state written out: the sorted record list and the
standard-output lines, or `none` if the program died on a parse error. -/
def run (input : List String) : Option (List Record × List String) :=
  match processLines input with
  | none => none
  | some (o, d) => some (sortRecords o, d)

/-- Opening brace character. -/
def lbrace : Char := Char.ofNat 123

/-- Closing brace character. -/
def rbrace : Char := Char.ofNat 125

/-- JSON string escaping of one character, as `json.dump` with the default
`ensure_ascii=True`: ASCII-printable characters other than `"` and `\`
are literal, short escapes for the usual control characters, `\uXXXX`
for other control and non-ASCII characters, surrogate pairs above the
basic multilingual plane. -/
def escChar (c : Char) : List Char :=
  if c = '"' then ['\\', '"']
  else if c = '\\' then ['\\', '\\']
  else if c = '\n' then ['\\', 'n']
  else if c = '\r' then ['\\', 'r']
  else if c = '\t' then ['\\', 't']
  else if c.toNat = 8 then ['\\', 'b']
  else if c.toNat = 12 then ['\\', 'f']
  else if c.toNat < 32 then '\\' :: 'u' :: hex4 c.toNat
  else if c.toNat ≤ 126 then [c]
  else if c.toNat < 65536 then '\\' :: 'u' :: hex4 c.toNat
  else ('\\' :: 'u' :: hex4 (55296 + (c.toNat - 65536) / 1024)) ++
    ('\\' :: 'u' :: hex4 (56320 + (c.toNat - 65536) % 1024))

/-- JSON escaping of a whole string body. -/
def escBody : List Char → List Char
  | [] => []
  | c :: cs => escChar c ++ escBody cs

/-- Characters of the JSON rendering of a string, quotes included. -/
def dumpStr (s : String) : List Char := '"' :: escBody s.data ++ ['"']

/-- Characters of one serialized record after its opening brace: the four
keys in the lexicographic order imposed by `sort_keys=True` with the
default separators `", "` and `": "`. -/
def dumpRecordBody (r : Record) : List Char :=
  dumpStr "description" ++ ':' :: ' ' :: dumpStr r.description ++
  ',' :: ' ' :: dumpStr "freqStart" ++ ':' :: ' ' :: intChars r.freqStart ++
  ',' :: ' ' :: dumpStr "freqStop" ++ ':' :: ' ' :: intChars r.freqStop ++
  ',' :: ' ' :: dumpStr "url" ++ ':' :: ' ' :: dumpStr r.url ++ [rbrace]

/-- Characters of one serialized record, braces included. -/
def dumpRecord (r : Record) : List Char := lbrace :: dumpRecordBody r

/-- Serialized array elements after the first: `", "` before each. -/
def restBody : List Record → List Char
  | [] => []
  | r :: rs => ',' :: ' ' :: dumpRecord r ++ restBody rs

/-- Serialized array elements, `", "`-separated. -/
def dumpsBody : List Record → List Char
  | [] => []
  | r :: rs => dumpRecord r ++ restBody rs

/-- Characters of `json.dump(out, f, sort_keys=True)` for the record
list `out`. -/
def dumpsChars (out : List Record) : List Char := '[' :: dumpsBody out ++ [']']

/-- The text `json.dump(out, f, sort_keys=True)` writes to the output
file for the record list `out`. -/
def dumps (out : List Record) : String := (dumpsChars out).asString

/-- A scalar JSON value, as they occur in the output of the program. -/
inductive JVal where
  | str (s : String)
  | int (i : Int)
deriving DecidableEq

/-- The JSON object (ordered key-value list) a record serializes to. -/
def recordJson (r : Record) : List (String × JVal) :=
  [("description", .str r.description), ("freqStart", .int r.freqStart),
   ("freqStop", .int r.freqStop), ("url", .str r.url)]

/-- Value of a hexadecimal digit character, upper or lower case. -/
def hexVal (c : Char) : Option Nat :=
  if 48 ≤ c.toNat ∧ c.toNat ≤ 57 then some (c.toNat - 48)
  else if 97 ≤ c.toNat ∧ c.toNat ≤ 102 then some (c.toNat - 87)
  else if 65 ≤ c.toNat ∧ c.toNat ≤ 70 then some (c.toNat - 55)
  else none

/-- Modelled from the spec: decode four hexadecimal digits, returning the
value and the remaining input. -/
def parseHex4 : List Char → Option (Nat × List Char)
  | h1 :: h2 :: h3 :: h4 :: rest =>
    match hexVal h1, hexVal h2, hexVal h3, hexVal h4 with
    | some a, some b, some c, some d => some (4096 * a + 256 * b + 16 * c + d, rest)
    | _, _, _, _ => none
  | _ => none

/-- Modelled from the spec: decoding of the low half of a surrogate pair
(`\\uXXXX` expected next), given the high half `n`. -/
def parseLowSurrogate (n : Nat) : List Char → Option (Char × Nat)
  | '\\' :: 'u' :: r2 =>
    match parseHex4 r2 with
    | none => none
    | some (m, _) =>
      if 56320 ≤ m ∧ m < 57344 then
        some (Char.ofNat (65536 + (n - 55296) * 1024 + (m - 56320)), 11)
      else none
  | _ => none

/-- Modelled from the spec: interpretation of the value of a `\\uXXXX`
escape: a plain code point, or a high surrogate to be combined with the
following escape; lone surrogates are rejected (not code points). -/
def parseUTail (n : Nat) (rest2 : List Char) : Option (Char × Nat) :=
  if n < 55296 ∨ 57344 ≤ n then some (Char.ofNat n, 5)
  else if n < 56320 then parseLowSurrogate n rest2
  else none

/-- Modelled from the spec: `json.loads`-style decoding of a `\\uXXXX`
escape (the characters after the `u`); surrogate pairs are recombined.
The count is the number of characters consumed including the leading
`u`. -/
def parseUEscape (rest : List Char) : Option (Char × Nat) :=
  match parseHex4 rest with
  | none => none
  | some (n, rest2) => parseUTail n rest2

/-- Modelled from the spec: `json.loads`-style decoding of one escape
sequence (the characters after a backslash); returns the decoded
character and how many characters were consumed. -/
def parseEscape : List Char → Option (Char × Nat)
  | [] => none
  | e :: rest =>
    if e = '"' then some ('"', 1)
    else if e = '\\' then some ('\\', 1)
    else if e = '/' then some ('/', 1)
    else if e = 'n' then some ('\n', 1)
    else if e = 'r' then some ('\r', 1)
    else if e = 't' then some ('\t', 1)
    else if e = 'b' then some (Char.ofNat 8, 1)
    else if e = 'f' then some (Char.ofNat 12, 1)
    else if e = 'u' then parseUEscape rest
    else none

/-- Modelled from the spec: JSON string-body decoding, from just after the
opening quote up to the closing quote; returns the decoded characters
and the input after the closing quote. -/
def parseStringBody (l : List Char) : Option (List Char × List Char) :=
  match l with
  | [] => none
  | c :: rest =>
    if c = '"' then some ([], rest)
    else if c = '\\' then
      match parseEscape rest with
      | none => none
      | some (ch, n) =>
        match parseStringBody (rest.drop n) with
        | none => none
        | some (cs, r2) => some (ch :: cs, r2)
    else
      match parseStringBody rest with
      | none => none
      | some (cs, r2) => some (c :: cs, r2)
termination_by l.length
decreasing_by
  all_goals simp [List.length_drop]
  omega

/-- Modelled from the spec: JSON integer decoding (optional minus sign,
then a run of decimal digits). -/
def parseNumber (l : List Char) : Option (Int × List Char) :=
  match l with
  | '-' :: rest =>
    if rest.takeWhile Char.isDigit = [] then none
    else some (-(digitsVal (rest.takeWhile Char.isDigit) : Int), rest.dropWhile Char.isDigit)
  | _ =>
    if l.takeWhile Char.isDigit = [] then none
    else some ((digitsVal (l.takeWhile Char.isDigit) : Int), l.dropWhile Char.isDigit)

/-- Modelled from the spec: decoding of one scalar JSON value. -/
def parseScalar (l : List Char) : Option (JVal × List Char) :=
  match l with
  | '"' :: rest =>
    match parseStringBody rest with
    | none => none
    | some (cs, r2) => some (.str cs.asString, r2)
  | _ =>
    match parseNumber l with
    | none => none
    | some (i, r2) => some (.int i, r2)

/-- Skip JSON inter-token whitespace. -/
def skipWs (l : List Char) : List Char :=
  l.dropWhile fun c => c = ' ' || c = '\n' || c = '\t' || c = '\r'

/-- Modelled from the spec: decoding of one `"key": value` object member. -/
def parseMember (l : List Char) : Option ((String × JVal) × List Char) :=
  match skipWs l with
  | '"' :: r =>
    match parseStringBody r with
    | none => none
    | some (k, r2) =>
      match skipWs r2 with
      | ':' :: r3 =>
        match parseScalar (skipWs r3) with
        | none => none
        | some (v, r4) => some ((k.asString, v), r4)
      | _ => none
  | _ => none

theorem skipWs_length_le (l : List Char) : (skipWs l).length ≤ l.length :=
  (List.dropWhile_sublist _).length_le

theorem parseStringBody_length : ∀ {l cs r : List Char},
    parseStringBody l = some (cs, r) → r.length < l.length := by
  suffices H : ∀ (n : Nat) (l cs r : List Char), l.length ≤ n →
      parseStringBody l = some (cs, r) → r.length < l.length by
    intro l cs r h
    exact H l.length l cs r le_rfl h
  intro n
  induction n with
  | zero =>
    intro l cs r hlen h
    have : l = [] := List.eq_nil_of_length_eq_zero (Nat.le_zero.mp hlen)
    subst this
    rw [parseStringBody] at h
    exact absurd h (by simp)
  | succ n ih =>
    intro l cs r hlen h
    match l with
    | [] =>
      rw [parseStringBody] at h
      exact absurd h (by simp)
    | c :: rest =>
      rw [parseStringBody] at h
      split at h
      · simp at h
        obtain ⟨-, h2⟩ := h
        subst h2
        simp
      · split at h
        · split at h
          · exact absurd h (by simp)
          · rename_i ch k hesc
            split at h
            · exact absurd h (by simp)
            · rename_i cs2 r2 hrec
              simp at h
              obtain ⟨-, h2⟩ := h
              subst h2
              have hd : (rest.drop k).length ≤ n := by
                simp [List.length_drop] at hlen ⊢
                omega
              have := ih _ _ _ hd hrec
              simp [List.length_drop] at this ⊢
              omega
        · split at h
          · exact absurd h (by simp)
          · rename_i cs2 r2 hrec
            simp at h
            obtain ⟨-, h2⟩ := h
            subst h2
            have hd : rest.length ≤ n := by simp at hlen; omega
            have := ih _ _ _ hd hrec
            simp
            omega

theorem parseNumber_length {l : List Char} {i : Int} {r : List Char}
    (h : parseNumber l = some (i, r)) : r.length ≤ l.length := by
  rw [parseNumber.eq_def] at h
  split at h
  · split at h
    · exact absurd h (by simp)
    · rename_i rest _
      simp at h
      rcases h with ⟨-, hr⟩
      subst hr
      have : (rest.dropWhile Char.isDigit).length ≤ rest.length :=
        (List.dropWhile_sublist _).length_le
      simp
      omega
  · split at h
    · exact absurd h (by simp)
    · simp at h
      rcases h with ⟨-, hr⟩
      subst hr
      exact (List.dropWhile_sublist _).length_le

theorem parseScalar_length {l : List Char} {v : JVal} {r : List Char}
    (h : parseScalar l = some (v, r)) : r.length ≤ l.length := by
  rw [parseScalar.eq_def] at h
  split at h
  · rename_i rest
    cases hs : parseStringBody rest with
    | none => rw [hs] at h; exact absurd h (by simp)
    | some p =>
      rw [hs] at h
      cases p with
      | mk cs r2 =>
        simp at h
        rcases h with ⟨-, hr⟩
        subst hr
        have := parseStringBody_length hs
        simp
        omega
  · cases hn : parseNumber l with
    | none => rw [hn] at h; exact absurd h (by simp)
    | some p =>
      rw [hn] at h
      cases p with
      | mk i2 r2 =>
        simp at h
        rcases h with ⟨-, hr⟩
        subst hr
        exact parseNumber_length hn

theorem parseMember_length {l : List Char} {kv : String × JVal} {r : List Char}
    (h : parseMember l = some (kv, r)) : r.length < l.length := by
  rw [parseMember.eq_def] at h
  split at h
  · rename_i r1 heq
    have h1 : r1.length + 1 ≤ l.length := by
      have := skipWs_length_le l
      rw [heq] at this
      simpa using this
    cases hs : parseStringBody r1 with
    | none => rw [hs] at h; exact absurd h (by simp)
    | some p =>
      rw [hs] at h
      cases p with
      | mk k r2 =>
        have h2 : r2.length < r1.length := parseStringBody_length hs
        simp only [] at h
        split at h
        · rename_i r3 heq3
          have h3 : r3.length + 1 ≤ r2.length := by
            have := skipWs_length_le r2
            rw [heq3] at this
            simpa using this
          cases hv : parseScalar (skipWs r3) with
          | none => rw [hv] at h; exact absurd h (by simp)
          | some p2 =>
            rw [hv] at h
            cases p2 with
            | mk v2 r4 =>
              simp at h
              rcases h with ⟨-, hr⟩
              subst hr
              have h4 : r4.length ≤ (skipWs r3).length := parseScalar_length hv
              have h5 := skipWs_length_le r3
              omega
        · exact absurd h (by simp)
  · exact absurd h (by simp)

/-- Modelled from the spec: decoding of the members of a JSON object after
the first one: a `,`-separated tail closed by `\x7d`. -/
def parseMembersLoop (l : List Char) : Option (List (String × JVal) × List Char) :=
  match hw : skipWs l with
  | [] => none
  | c :: r =>
    if c = rbrace then some ([], r)
    else if c = ',' then
      match hm : parseMember r with
      | none => none
      | some (kv, r2) =>
        match parseMembersLoop r2 with
        | none => none
        | some (kvs, r3) => some (kv :: kvs, r3)
    else none
termination_by l.length
decreasing_by
  have h1 := skipWs_length_le l
  rw [hw] at h1
  simp at h1
  have h2 := parseMember_length hm
  omega

theorem parseMembersLoop_length : ∀ {l : List Char} {kvs : List (String × JVal)} {r : List Char},
    parseMembersLoop l = some (kvs, r) → r.length < l.length := by
  suffices H : ∀ (n : Nat) (l : List Char) (kvs : List (String × JVal)) (r : List Char),
      l.length ≤ n → parseMembersLoop l = some (kvs, r) → r.length < l.length by
    intro l kvs r h
    exact H l.length l kvs r le_rfl h
  intro n
  induction n with
  | zero =>
    intro l kvs r hlen h
    have hl : l = [] := List.eq_nil_of_length_eq_zero (Nat.le_zero.mp hlen)
    subst hl
    rw [parseMembersLoop.eq_def] at h
    simp [skipWs] at h
  | succ n ih =>
    intro l kvs r hlen h
    rw [parseMembersLoop.eq_def] at h
    split at h
    · exact absurd h (by simp)
    · rename_i c rst hw
      have hc : rst.length + 1 ≤ l.length := by
        have := skipWs_length_le l
        rw [hw] at this
        simpa using this
      split at h
      · simp at h
        obtain ⟨-, h2⟩ := h
        subst h2
        omega
      · split at h
        · split at h
          · exact absurd h (by simp)
          · rename_i kv r2 hm
            split at h
            · exact absurd h (by simp)
            · rename_i kvs2 r3 hloop
              simp at h
              obtain ⟨-, h2⟩ := h
              subst h2
              have hm2 := parseMember_length hm
              have hr2 : r2.length ≤ n := by omega
              have := ih r2 kvs2 r3 hr2 hloop
              omega
        · exact absurd h (by simp)

/-- Modelled from the spec: decoding of a JSON object from just after its
opening brace: empty object, or first member followed by the member
tail. -/
def parseObject (l : List Char) : Option (List (String × JVal) × List Char) :=
  match skipWs l with
  | [] => none
  | c :: r =>
    if c = rbrace then some ([], r)
    else
      match parseMember l with
      | none => none
      | some (kv, r2) =>
        match parseMembersLoop r2 with
        | none => none
        | some (kvs, r3) => some (kv :: kvs, r3)

theorem parseObject_length {l : List Char} {o : List (String × JVal)} {r : List Char}
    (h : parseObject l = some (o, r)) : r.length < l.length := by
  rw [parseObject.eq_def] at h
  split at h
  · exact absurd h (by simp)
  · rename_i c rst hw
    have hc : rst.length + 1 ≤ l.length := by
      have := skipWs_length_le l
      rw [hw] at this
      simpa using this
    split at h
    · simp at h
      obtain ⟨-, h2⟩ := h
      subst h2
      omega
    · split at h
      · exact absurd h (by simp)
      · rename_i kv r2 hm
        split at h
        · exact absurd h (by simp)
        · rename_i kvs2 r3 hloop
          simp at h
          obtain ⟨-, h2⟩ := h
          subst h2
          have := parseMember_length hm
          have := parseMembersLoop_length hloop
          omega

/-- Modelled from the spec: decoding of the elements of a JSON array of
objects after the first one: a `,`-separated tail closed by `]`. -/
def parseElemsLoop (l : List Char) : Option (List (List (String × JVal)) × List Char) :=
  match hw : skipWs l with
  | [] => none
  | c :: r =>
    if c = ']' then some ([], r)
    else if c = ',' then
      match hw2 : skipWs r with
      | [] => none
      | c2 :: r2 =>
        if c2 = lbrace then
          match ho : parseObject r2 with
          | none => none
          | some (o, r3) =>
            match parseElemsLoop r3 with
            | none => none
            | some (os, r4) => some (o :: os, r4)
        else none
    else none
termination_by l.length
decreasing_by
  have h1 := skipWs_length_le l
  rw [hw] at h1
  simp at h1
  have h2 := skipWs_length_le r
  rw [hw2] at h2
  simp at h2
  have h3 := parseObject_length ho
  omega

/-- Modelled from the spec: decoding of a JSON array of objects from just
after its opening bracket. -/
def parseArrayBody (l : List Char) : Option (List (List (String × JVal)) × List Char) :=
  match skipWs l with
  | [] => none
  | c :: r =>
    if c = ']' then some ([], r)
    else if c = lbrace then
      match parseObject r with
      | none => none
      | some (o, r2) =>
        match parseElemsLoop r2 with
        | none => none
        | some (os, r3) => some (o :: os, r3)
    else none

/-- Modelled from the spec: `json.loads` on a document that is an array of
objects of scalar values, as this program always emits; `none` models a
decode error. -/
def parseJson (s : String) : Option (List (List (String × JVal))) :=
  match skipWs s.data with
  | [] => none
  | c :: r =>
    if c = '[' then
      match parseArrayBody r with
      | none => none
      | some (os, rest) => if skipWs rest = [] then some os else none
    else none

theorem hexVal_hexDig : ∀ d : Nat, d < 16 → hexVal (hexDig d) = some d := by decide

theorem toNat_ofNat_valid {n : Nat} (h : n.isValidChar) : (Char.ofNat n).toNat = n := by
  simp [Char.ofNat, h]
  rfl

theorem char_toNat_valid (c : Char) : c.toNat < 55296 ∨ 57343 < c.toNat ∧ c.toNat < 1114112 :=
  c.valid

theorem parseHex4_hex4 {n : Nat} (hn : n < 65536) (tail : List Char) :
    parseHex4 (hex4 n ++ tail) = some (n, tail) := by
  rw [hex4]
  simp only [List.cons_append, List.nil_append]
  rw [parseHex4.eq_def]
  have e1 := hexVal_hexDig (n / 4096 % 16) (Nat.mod_lt _ (by norm_num))
  have e2 := hexVal_hexDig (n / 256 % 16) (Nat.mod_lt _ (by norm_num))
  have e3 := hexVal_hexDig (n / 16 % 16) (Nat.mod_lt _ (by norm_num))
  have e4 := hexVal_hexDig (n % 16) (Nat.mod_lt _ (by norm_num))
  simp [e1, e2, e3, e4]
  omega

theorem parseEscape_u (rest : List Char) : parseEscape ('u' :: rest) = parseUEscape rest := by
  rw [parseEscape.eq_def]
  simp

theorem parseUEscape_eq {rest : List Char} {n : Nat} {rest2 : List Char}
    (h : parseHex4 rest = some (n, rest2)) : parseUEscape rest = parseUTail n rest2 := by
  rw [parseUEscape.eq_def, h]

theorem parseLowSurrogate_eq {r2 : List Char} {m : Nat} {x : List Char}
    (h : parseHex4 r2 = some (m, x)) (hm : 56320 ≤ m) (hm2 : m < 57344) (n : Nat) :
    parseLowSurrogate n ('\\' :: 'u' :: r2) =
      some (Char.ofNat (65536 + (n - 55296) * 1024 + (m - 56320)), 11) := by
  rw [parseLowSurrogate]
  simp [h, hm, hm2]

theorem parseEscape_hex4 {n : Nat} (hn : n < 65536) (hs : n < 55296 ∨ 57344 ≤ n)
    (tail : List Char) :
    parseEscape ('u' :: (hex4 n ++ tail)) = some (Char.ofNat n, 5) := by
  rw [parseEscape_u, parseUEscape_eq (parseHex4_hex4 hn tail), parseUTail]
  rw [if_pos hs]

theorem parseEscape_surrogate {n : Nat} (hn : 65536 ≤ n) (hn2 : n < 1114112) (tail : List Char) :
    parseEscape ('u' :: (hex4 (55296 + (n - 65536) / 1024) ++
      ('\\' :: 'u' :: (hex4 (56320 + (n - 65536) % 1024) ++ tail)))) = some (Char.ofNat n, 11) := by
  have hhi : 55296 + (n - 65536) / 1024 < 65536 := by omega
  have hlo : 56320 + (n - 65536) % 1024 < 65536 := by omega
  rw [parseEscape_u,
    parseUEscape_eq (parseHex4_hex4 hhi ('\\' :: 'u' :: (hex4 (56320 + (n - 65536) % 1024) ++ tail))),
    parseUTail]
  rw [if_neg (by omega), if_pos (by omega)]
  rw [parseLowSurrogate_eq (parseHex4_hex4 hlo tail) (by omega) (by omega)]
  have harg : 65536 + (55296 + (n - 65536) / 1024 - 55296) * 1024 +
      (56320 + (n - 65536) % 1024 - 56320) = n := by omega
  rw [harg]

theorem parseStringBody_backslash {ch : Char} {k : Nat} {rest tail cs r : List Char}
    (hesc : parseEscape rest = some (ch, k)) (hdrop : rest.drop k = tail)
    (h : parseStringBody tail = some (cs, r)) :
    parseStringBody ('\\' :: rest) = some (ch :: cs, r) := by
  rw [parseStringBody]
  simp [hesc, hdrop, h]

theorem parseStringBody_escChar (c : Char) {tail cs r : List Char}
    (h : parseStringBody tail = some (cs, r)) :
    parseStringBody (escChar c ++ tail) = some (c :: cs, r) := by
  have hv := char_toNat_valid c
  rw [escChar]
  by_cases h1 : c = '"'
  · rw [if_pos h1]
    subst h1
    rw [List.cons_append, List.cons_append, List.nil_append]
    have hesc : parseEscape ('"' :: tail) = some ('"', 1) := by simp [parseEscape]
    exact parseStringBody_backslash hesc (by simp) h
  · rw [if_neg h1]
    by_cases h2 : c = '\\'
    · rw [if_pos h2]
      subst h2
      rw [List.cons_append, List.cons_append, List.nil_append]
      have hesc : parseEscape ('\\' :: tail) = some ('\\', 1) := by simp [parseEscape]
      exact parseStringBody_backslash hesc (by simp) h
    · rw [if_neg h2]
      by_cases h3 : c = '\n'
      · rw [if_pos h3]
        subst h3
        rw [List.cons_append, List.cons_append, List.nil_append]
        have hesc : parseEscape ('n' :: tail) = some ('\n', 1) := by simp [parseEscape]
        exact parseStringBody_backslash hesc (by simp) h
      · rw [if_neg h3]
        by_cases h4 : c = '\r'
        · rw [if_pos h4]
          subst h4
          rw [List.cons_append, List.cons_append, List.nil_append]
          have hesc : parseEscape ('r' :: tail) = some ('\r', 1) := by simp [parseEscape]
          exact parseStringBody_backslash hesc (by simp) h
        · rw [if_neg h4]
          by_cases h5 : c = '\t'
          · rw [if_pos h5]
            subst h5
            rw [List.cons_append, List.cons_append, List.nil_append]
            have hesc : parseEscape ('t' :: tail) = some ('\t', 1) := by simp [parseEscape]
            exact parseStringBody_backslash hesc (by simp) h
          · rw [if_neg h5]
            by_cases h6 : c.toNat = 8
            · rw [if_pos h6]
              have hc : Char.ofNat 8 = c := by rw [← h6, Char.ofNat_toNat]
              rw [List.cons_append, List.cons_append, List.nil_append]
              have hesc : parseEscape ('b' :: tail) = some (Char.ofNat 8, 1) := by
                simp [parseEscape]
              conv_rhs => rw [← hc]
              exact parseStringBody_backslash hesc (by simp) h
            · rw [if_neg h6]
              by_cases h7 : c.toNat = 12
              · rw [if_pos h7]
                have hc : Char.ofNat 12 = c := by rw [← h7, Char.ofNat_toNat]
                rw [List.cons_append, List.cons_append, List.nil_append]
                have hesc : parseEscape ('f' :: tail) = some (Char.ofNat 12, 1) := by
                  simp [parseEscape]
                conv_rhs => rw [← hc]
                exact parseStringBody_backslash hesc (by simp) h
              · rw [if_neg h7]
                by_cases h8 : c.toNat < 32
                · rw [if_pos h8]
                  have hc : Char.ofNat c.toNat = c := Char.ofNat_toNat c
                  have hesc := parseEscape_hex4 (n := c.toNat) (by omega) (by omega) tail
                  rw [List.cons_append, List.cons_append]
                  conv_rhs => rw [← hc]
                  exact parseStringBody_backslash hesc (by simp [hex4]) h
                · rw [if_neg h8]
                  by_cases h9 : c.toNat ≤ 126
                  · rw [if_pos h9]
                    rw [List.cons_append, List.nil_append, parseStringBody]
                    simp [h1, h2, h]
                  · rw [if_neg h9]
                    by_cases h10 : c.toNat < 65536
                    · rw [if_pos h10]
                      have hc : Char.ofNat c.toNat = c := Char.ofNat_toNat c
                      have hesc := parseEscape_hex4 (n := c.toNat) (by omega) (by omega) tail
                      rw [List.cons_append, List.cons_append]
                      conv_rhs => rw [← hc]
                      exact parseStringBody_backslash hesc (by simp [hex4]) h
                    · rw [if_neg h10]
                      have hc : Char.ofNat c.toNat = c := Char.ofNat_toNat c
                      have hesc := parseEscape_surrogate (n := c.toNat) (by omega) (by omega) tail
                      simp only [List.cons_append, List.append_assoc]
                      conv_rhs => rw [← hc]
                      exact parseStringBody_backslash hesc (by simp [hex4]) h

theorem parseStringBody_escBody (cs : List Char) : ∀ {tail cs2 r : List Char},
    parseStringBody tail = some (cs2, r) →
    parseStringBody (escBody cs ++ tail) = some (cs ++ cs2, r) := by
  induction cs with
  | nil =>
    intro tail cs2 r h
    simpa using h
  | cons c cs ih =>
    intro tail cs2 r h
    rw [escBody, List.append_assoc]
    have := parseStringBody_escChar c (ih h)
    simpa using this

theorem parseStringBody_dumpStr (s : String) (tail : List Char) :
    parseStringBody (escBody s.data ++ '"' :: tail) = some (s.data, tail) := by
  have base : parseStringBody ('"' :: tail) = some ([], tail) := by
    rw [parseStringBody]
    simp
  have := parseStringBody_escBody s.data base
  simpa using this

theorem digit_chars_facts : ∀ m : Nat, m < 10 →
    (Char.ofNat (48 + m)).toNat = 48 + m ∧ (Char.ofNat (48 + m)).isDigit = true := by decide

theorem natDigits_isDigit : ∀ (n : Nat) (c : Char), c ∈ natDigits n → c.isDigit = true := by
  intro n
  induction n using Nat.strong_induction_on with
  | _ n ih =>
    intro c hc
    rw [natDigits] at hc
    by_cases h : n < 10
    · rw [if_pos h] at hc
      simp at hc
      subst hc
      exact (digit_chars_facts n h).2
    · rw [if_neg h] at hc
      rw [List.mem_append] at hc
      cases hc with
      | inl hm => exact ih (n / 10) (by omega) c hm
      | inr hm =>
        simp at hm
        subst hm
        exact (digit_chars_facts (n % 10) (by omega)).2

theorem natDigits_ne_nil (n : Nat) : natDigits n ≠ [] := by
  rw [natDigits]
  split <;> simp

theorem digitsVal_natDigits : ∀ n : Nat, digitsVal (natDigits n) = n := by
  intro n
  induction n using Nat.strong_induction_on with
  | _ n ih =>
    rw [natDigits]
    by_cases h : n < 10
    · rw [if_pos h]
      have ht := (digit_chars_facts n h).1
      simp [digitsVal, ht]
    · rw [if_neg h]
      rw [digitsVal, List.foldl_append]
      have ihd := ih (n / 10) (by omega)
      rw [digitsVal] at ihd
      rw [ihd]
      have ht := (digit_chars_facts (n % 10) (by omega)).1
      simp [ht]
      omega

theorem takeWhile_append_all {p : Char → Bool} :
    ∀ {ds rest : List Char}, (∀ c ∈ ds, p c = true) →
      (ds ++ rest).takeWhile p = ds ++ rest.takeWhile p := by
  intro ds
  induction ds with
  | nil => intro rest h; simp
  | cons d ds ih =>
    intro rest h
    rw [List.cons_append, List.takeWhile_cons, if_pos (h d (by simp)), ih]
    · rfl
    · intro c hc
      exact h c (by simp [hc])

theorem dropWhile_append_all {p : Char → Bool} :
    ∀ {ds rest : List Char}, (∀ c ∈ ds, p c = true) →
      (ds ++ rest).dropWhile p = rest.dropWhile p := by
  intro ds
  induction ds with
  | nil => intro rest h; simp
  | cons d ds ih =>
    intro rest h
    rw [List.cons_append, List.dropWhile_cons, if_pos (h d (by simp)), ih]
    intro c hc
    exact h c (by simp [hc])

theorem parseNumber_natDigits {n : Nat} {rest : List Char}
    (h1 : rest.takeWhile Char.isDigit = []) (h2 : rest.dropWhile Char.isDigit = rest)
    (hhead : ∀ r2, natDigits n ++ rest ≠ '-' :: r2) :
    parseNumber (natDigits n ++ rest) = some ((n : Int), rest) := by
  rw [parseNumber.eq_def]
  split
  · rename_i r2 heq
    exact absurd heq (hhead r2)
  · rw [takeWhile_append_all (natDigits_isDigit n), h1,
      dropWhile_append_all (natDigits_isDigit n), h2]
    rw [if_neg (by simp [natDigits_ne_nil n])]
    rw [List.append_nil, digitsVal_natDigits]

theorem natDigits_not_minus (n : Nat) (rest : List Char) :
    ∀ r2, natDigits n ++ rest ≠ '-' :: r2 := by
  intro r2 heq
  cases hnd : natDigits n with
  | nil => exact natDigits_ne_nil n hnd
  | cons d ds =>
    rw [hnd, List.cons_append] at heq
    have hd : d = '-' := by
      have := List.head_eq_of_cons_eq heq
      exact this
    have : d.isDigit = true := natDigits_isDigit n d (by rw [hnd]; simp)
    rw [hd] at this
    exact absurd this (by decide)

theorem parseNumber_intChars {i : Int} {rest : List Char}
    (h1 : rest.takeWhile Char.isDigit = []) (h2 : rest.dropWhile Char.isDigit = rest) :
    parseNumber (intChars i ++ rest) = some (i, rest) := by
  rw [intChars]
  by_cases hneg : i < 0
  · rw [if_pos hneg, List.cons_append, parseNumber]
    rw [takeWhile_append_all (natDigits_isDigit i.natAbs), h1,
      dropWhile_append_all (natDigits_isDigit i.natAbs), h2]
    rw [if_neg (by simp [natDigits_ne_nil i.natAbs])]
    rw [List.append_nil, digitsVal_natDigits]
    have : ((i.natAbs : Nat) : Int) = -i := by omega
    rw [this, neg_neg]
  · rw [if_neg hneg]
    have := parseNumber_natDigits (n := i.toNat) h1 h2 (natDigits_not_minus i.toNat rest)
    rw [this]
    congr
    omega

theorem asString_data (s : String) : s.data.asString = s := rfl

theorem skipWs_cons {c : Char} (l : List Char)
    (h1 : c ≠ ' ') (h2 : c ≠ '\n') (h3 : c ≠ '\t') (h4 : c ≠ '\r') :
    skipWs (c :: l) = c :: l := by
  rw [skipWs, List.dropWhile_cons]
  simp [h1, h2, h3, h4]

theorem skipWs_space (l : List Char) : skipWs (' ' :: l) = skipWs l := by
  rw [skipWs, List.dropWhile_cons, if_pos (by decide)]
  rfl

theorem parseScalar_dumpStr (s : String) (tail : List Char) :
    parseScalar (dumpStr s ++ tail) = some (.str s, tail) := by
  have hform : dumpStr s ++ tail = '"' :: (escBody s.data ++ '"' :: tail) := by
    simp [dumpStr]
  rw [hform, parseScalar.eq_def]
  simp [parseStringBody_dumpStr, asString_data]

theorem natDigits_head_not (n : Nat) (rest : List Char) {c : Char} (hc : c.isDigit = false) :
    ∀ r2, natDigits n ++ rest ≠ c :: r2 := by
  intro r2 heq
  cases hnd : natDigits n with
  | nil => exact natDigits_ne_nil n hnd
  | cons d ds =>
    rw [hnd, List.cons_append] at heq
    have hd : d = c := List.head_eq_of_cons_eq heq
    have : d.isDigit = true := natDigits_isDigit n d (by rw [hnd]; simp)
    rw [hd, hc] at this
    exact absurd this (by simp)

theorem intChars_not_quote (i : Int) (rest : List Char) :
    ∀ r2, intChars i ++ rest ≠ '"' :: r2 := by
  intro r2
  rw [intChars]
  by_cases hneg : i < 0
  · rw [if_pos hneg, List.cons_append]
    intro heq
    have : '-' = '"' := List.head_eq_of_cons_eq heq
    exact absurd this (by decide)
  · rw [if_neg hneg]
    exact natDigits_head_not i.toNat rest (by decide) r2

theorem parseScalar_intChars {i : Int} {rest : List Char}
    (h1 : rest.takeWhile Char.isDigit = []) (h2 : rest.dropWhile Char.isDigit = rest) :
    parseScalar (intChars i ++ rest) = some (.int i, rest) := by
  rw [parseScalar.eq_def]
  split
  · rename_i r2 heq
    exact absurd heq (intChars_not_quote i rest r2)
  · rw [parseNumber_intChars h1 h2]

theorem parseMember_space (l : List Char) : parseMember (' ' :: l) = parseMember l := by
  rw [parseMember.eq_def, skipWs_space]
  rw [← parseMember.eq_def]

theorem parseMember_str (k s : String) (tail : List Char) :
    parseMember (dumpStr k ++ ':' :: ' ' :: (dumpStr s ++ tail)) = some ((k, .str s), tail) := by
  have hform : dumpStr k ++ ':' :: ' ' :: (dumpStr s ++ tail) =
      '"' :: (escBody k.data ++ '"' :: (':' :: ' ' :: (dumpStr s ++ tail))) := by
    simp [dumpStr]
  have hq : skipWs (dumpStr s ++ tail) = dumpStr s ++ tail := by
    have hf2 : dumpStr s ++ tail = '"' :: (escBody s.data ++ '"' :: tail) := by simp [dumpStr]
    rw [hf2, skipWs_cons _ (by decide) (by decide) (by decide) (by decide)]
  rw [parseMember.eq_def, hform,
    skipWs_cons _ (by decide) (by decide) (by decide) (by decide)]
  simp [parseStringBody_dumpStr, skipWs_cons, skipWs_space, hq, parseScalar_dumpStr,
    asString_data]

theorem parseMember_int (k : String) (i : Int) (tail : List Char)
    (h1 : tail.takeWhile Char.isDigit = []) (h2 : tail.dropWhile Char.isDigit = tail) :
    parseMember (dumpStr k ++ ':' :: ' ' :: (intChars i ++ tail)) = some ((k, .int i), tail) := by
  have hform : dumpStr k ++ ':' :: ' ' :: (intChars i ++ tail) =
      '"' :: (escBody k.data ++ '"' :: (':' :: ' ' :: (intChars i ++ tail))) := by
    simp [dumpStr]
  have hq : skipWs (intChars i ++ tail) = intChars i ++ tail := by
    rw [intChars]
    by_cases hneg : i < 0
    · rw [if_pos hneg, List.cons_append,
        skipWs_cons _ (by decide) (by decide) (by decide) (by decide)]
    · rw [if_neg hneg]
      cases hnd : natDigits i.toNat with
      | nil => exact absurd hnd (natDigits_ne_nil _)
      | cons d ds =>
        rw [List.cons_append]
        have hdig : d.isDigit = true := natDigits_isDigit _ d (by rw [hnd]; simp)
        have hs1 : d ≠ ' ' := fun hx => by rw [hx] at hdig; exact absurd hdig (by decide)
        have hs2 : d ≠ '\n' := fun hx => by rw [hx] at hdig; exact absurd hdig (by decide)
        have hs3 : d ≠ '\t' := fun hx => by rw [hx] at hdig; exact absurd hdig (by decide)
        have hs4 : d ≠ '\r' := fun hx => by rw [hx] at hdig; exact absurd hdig (by decide)
        rw [skipWs_cons _ hs1 hs2 hs3 hs4]
  rw [parseMember.eq_def, hform,
    skipWs_cons _ (by decide) (by decide) (by decide) (by decide)]
  simp [parseStringBody_dumpStr, skipWs_cons, skipWs_space, hq, parseScalar_intChars h1 h2,
    asString_data]

theorem lbrace_not_ws : lbrace ≠ ' ' ∧ lbrace ≠ '\n' ∧ lbrace ≠ '\t' ∧ lbrace ≠ '\r' := by
  decide

theorem parseMember_str2 (k s : String) (tail : List Char) :
    parseMember ('"' :: (escBody k.data ++ '"' :: (':' :: ' ' :: (dumpStr s ++ tail)))) =
      some ((k, .str s), tail) := by
  have h := parseMember_str k s tail
  rw [show dumpStr k ++ ':' :: ' ' :: (dumpStr s ++ tail) =
    '"' :: (escBody k.data ++ '"' :: (':' :: ' ' :: (dumpStr s ++ tail))) from by
      simp [dumpStr]] at h
  exact h

theorem comma_ne_rbrace : ¬(',' = rbrace) := by decide

theorem quote_ne_rbrace : ¬('"' = rbrace) := by decide

theorem parseMembersLoop_rbrace (tail : List Char) :
    parseMembersLoop (rbrace :: tail) = some ([], tail) := by
  rw [parseMembersLoop.eq_def,
    skipWs_cons _ (by decide) (by decide) (by decide) (by decide)]
  simp

theorem parseMembersLoop_int_step {k : String} {i : Int} {tail : List Char}
    {kvs : List (String × JVal)} {r3 : List Char}
    (h1 : tail.takeWhile Char.isDigit = []) (h2 : tail.dropWhile Char.isDigit = tail)
    (hrec : parseMembersLoop tail = some (kvs, r3)) :
    parseMembersLoop (',' :: ' ' :: (dumpStr k ++ ':' :: ' ' :: (intChars i ++ tail))) =
      some ((k, .int i) :: kvs, r3) := by
  rw [parseMembersLoop.eq_def,
    skipWs_cons _ (by decide) (by decide) (by decide) (by decide)]
  simp only [comma_ne_rbrace, ite_false, ite_true, if_pos, if_neg, reduceIte]
  split
  · rename_i heq
    rw [parseMember_space, parseMember_int k i tail h1 h2] at heq
    exact absurd heq (by simp)
  · rename_i kv r2 heq
    rw [parseMember_space, parseMember_int k i tail h1 h2] at heq
    simp only [Option.some.injEq, Prod.mk.injEq] at heq
    obtain ⟨h9, h10⟩ := heq
    subst h9
    subst h10
    simp [hrec]

theorem parseMembersLoop_str_step {k s : String} {tail : List Char}
    {kvs : List (String × JVal)} {r3 : List Char}
    (hrec : parseMembersLoop tail = some (kvs, r3)) :
    parseMembersLoop (',' :: ' ' :: (dumpStr k ++ ':' :: ' ' :: (dumpStr s ++ tail))) =
      some ((k, .str s) :: kvs, r3) := by
  rw [parseMembersLoop.eq_def,
    skipWs_cons _ (by decide) (by decide) (by decide) (by decide)]
  simp only [comma_ne_rbrace, ite_false, ite_true, if_pos, if_neg, reduceIte]
  split
  · rename_i heq
    rw [parseMember_space, parseMember_str k s tail] at heq
    exact absurd heq (by simp)
  · rename_i kv r2 heq
    rw [parseMember_space, parseMember_str k s tail] at heq
    simp only [Option.some.injEq, Prod.mk.injEq] at heq
    obtain ⟨h9, h10⟩ := heq
    subst h9
    subst h10
    simp [hrec]

theorem parseObject_dumpRecordBody (r : Record) (tail : List Char) :
    parseObject (dumpRecordBody r ++ tail) = some (recordJson r, tail) := by
  have c0 := parseMembersLoop_rbrace tail
  have c1 := parseMembersLoop_str_step (k := "url") (s := r.url) c0
  have c2 := parseMembersLoop_int_step (k := "freqStop") (i := r.freqStop)
    (by simp [List.takeWhile_cons]) (by simp [List.dropWhile_cons]) c1
  have c3 := parseMembersLoop_int_step (k := "freqStart") (i := r.freqStart)
    (by simp [List.takeWhile_cons]) (by simp [List.dropWhile_cons]) c2
  have hform : dumpRecordBody r ++ tail = '"' :: (escBody "description".data ++ '"' ::
      (':' :: ' ' :: (dumpStr r.description ++ (',' :: ' ' :: (dumpStr "freqStart" ++
        ':' :: ' ' :: (intChars r.freqStart ++ (',' :: ' ' :: (dumpStr "freqStop" ++
          ':' :: ' ' :: (intChars r.freqStop ++ (',' :: ' ' :: (dumpStr "url" ++
            ':' :: ' ' :: (dumpStr r.url ++ rbrace :: tail)))))))))))) := by
    simp [dumpRecordBody, dumpStr]
  have hm1 := parseMember_str2 "description" r.description
    (',' :: ' ' :: (dumpStr "freqStart" ++ ':' :: ' ' :: (intChars r.freqStart ++
      (',' :: ' ' :: (dumpStr "freqStop" ++ ':' :: ' ' :: (intChars r.freqStop ++
        (',' :: ' ' :: (dumpStr "url" ++ ':' :: ' ' :: (dumpStr r.url ++ rbrace :: tail)))))))))
  simp only [] at hm1
  rw [parseObject.eq_def, hform,
    skipWs_cons _ (by decide) (by decide) (by decide) (by decide)]
  simp [quote_ne_rbrace, hm1, c3, recordJson]

theorem parseElemsLoop_rbracket (tail : List Char) :
    parseElemsLoop (']' :: tail) = some ([], tail) := by
  rw [parseElemsLoop.eq_def,
    skipWs_cons _ (by decide) (by decide) (by decide) (by decide)]
  simp

theorem parseElemsLoop_step {tail : List Char} {os : List (List (String × JVal))}
    {r4 : List Char} (r : Record) (hrec : parseElemsLoop tail = some (os, r4)) :
    parseElemsLoop (',' :: ' ' :: (dumpRecord r ++ tail)) = some (recordJson r :: os, r4) := by
  have hsw : skipWs (' ' :: (dumpRecord r ++ tail)) = lbrace :: (dumpRecordBody r ++ tail) := by
    rw [skipWs_space, show dumpRecord r ++ tail = lbrace :: (dumpRecordBody r ++ tail) from by
      simp [dumpRecord]]
    exact skipWs_cons _ (by decide) (by decide) (by decide) (by decide)
  rw [parseElemsLoop.eq_def,
    skipWs_cons _ (by decide) (by decide) (by decide) (by decide)]
  simp only [show ¬(',' = ']') from by decide, ite_false, ite_true, if_pos, if_neg, reduceIte]
  split
  · rename_i heq
    rw [hsw] at heq
    exact absurd heq (by simp)
  · rename_i c2 r2 heq
    rw [hsw] at heq
    simp only [List.cons.injEq] at heq
    obtain ⟨h9, h10⟩ := heq
    subst h9
    subst h10
    rw [if_pos rfl]
    split
    · rename_i heq2
      rw [parseObject_dumpRecordBody] at heq2
      exact absurd heq2 (by simp)
    · rename_i o r3 heq2
      rw [parseObject_dumpRecordBody] at heq2
      simp only [Option.some.injEq, Prod.mk.injEq] at heq2
      obtain ⟨h9, h10⟩ := heq2
      subst h9
      subst h10
      simp [hrec]

theorem parseElemsLoop_restBody (rs : List Record) (tail : List Char) :
    parseElemsLoop (restBody rs ++ ']' :: tail) = some (rs.map recordJson, tail) := by
  induction rs with
  | nil => simpa [restBody] using parseElemsLoop_rbracket tail
  | cons r rs ih =>
    have step := parseElemsLoop_step r ih
    rw [restBody]
    rw [show (',' :: ' ' :: dumpRecord r ++ restBody rs) ++ ']' :: tail =
      ',' :: ' ' :: (dumpRecord r ++ (restBody rs ++ ']' :: tail)) from by simp]
    exact step

theorem parseArrayBody_dumpsBody (rs : List Record) (tail : List Char) :
    parseArrayBody (dumpsBody rs ++ ']' :: tail) = some (rs.map recordJson, tail) := by
  cases rs with
  | nil =>
    rw [dumpsBody, List.nil_append, parseArrayBody.eq_def,
      skipWs_cons _ (by decide) (by decide) (by decide) (by decide)]
    simp
  | cons r rs =>
    have hform : dumpsBody (r :: rs) ++ ']' :: tail =
        lbrace :: (dumpRecordBody r ++ (restBody rs ++ ']' :: tail)) := by
      simp [dumpsBody, dumpRecord]
    have hlb := lbrace_not_ws
    rw [parseArrayBody.eq_def, hform,
      skipWs_cons _ hlb.1 hlb.2.1 hlb.2.2.1 hlb.2.2.2]
    simp [show ¬(lbrace = ']') from by decide, parseObject_dumpRecordBody,
      parseElemsLoop_restBody rs tail]

theorem data_asString (l : List Char) : l.asString.data = l := rfl

theorem parseJson_dumps (rs : List Record) : parseJson (dumps rs) = some (rs.map recordJson) := by
  have hdata : (dumps rs).data = '[' :: (dumpsBody rs ++ ']' :: []) := by
    rw [dumps, data_asString, dumpsChars]
    simp
  rw [parseJson.eq_def, hdata,
    skipWs_cons _ (by decide) (by decide) (by decide) (by decide)]
  simp [parseArrayBody_dumpsBody rs [], skipWs]

theorem processLines_eq (ls : List String) (h : ∀ l ∈ ls, processLine l ≠ .parseFail) :
    processLines ls = some (ls.filterMap lineOut, ls.filterMap lineDiag) := by
  induction ls with
  | nil => simp [processLines]
  | cons l ls ih =>
    have hl := h l (by simp)
    have hrest : ∀ l2 ∈ ls, processLine l2 ≠ .parseFail := fun l2 hm => h l2 (by simp [hm])
    rw [processLines]
    cases hp : processLine l with
    | short => simp [hp, ih hrest, List.filterMap_cons, lineOut, lineDiag]
    | parseFail => exact absurd hp hl
    | kept r => simp [hp, ih hrest, List.filterMap_cons, lineOut, lineDiag]
    | skipped r => simp [hp, ih hrest, List.filterMap_cons, lineOut, lineDiag]

theorem processLines_none_iff (ls : List String) :
    processLines ls = none ↔ ∃ l ∈ ls, processLine l = .parseFail := by
  induction ls with
  | nil => simp [processLines]
  | cons l ls ih =>
    rw [processLines]
    cases hp : processLine l with
    | short => simp [hp, ih]
    | parseFail => simp [hp]
    | kept r =>
      cases hrest : processLines ls with
      | none => simp [hp, ih.mp hrest]
      | some p => simp [hp, hrest, ← ih]
    | skipped r =>
      cases hrest : processLines ls with
      | none => simp [hp, ih.mp hrest]
      | some p => simp [hp, hrest, ← ih]

theorem bwle_trans : ∀ a b c : Record,
    (decide (bandwidth b ≤ bandwidth a)) = true → (decide (bandwidth c ≤ bandwidth b)) = true →
    (decide (bandwidth c ≤ bandwidth a)) = true := by
  intro a b c h1 h2
  simp at h1 h2 ⊢
  omega

theorem bwle_total : ∀ a b : Record,
    ((decide (bandwidth b ≤ bandwidth a)) || (decide (bandwidth a ≤ bandwidth b))) = true := by
  intro a b
  simp
  omega

theorem sortRecords_pairwise (rs : List Record) :
    (sortRecords rs).Pairwise (fun a b => bandwidth b ≤ bandwidth a) := by
  have := List.sorted_mergeSort bwle_trans bwle_total rs
  rw [sortRecords]
  exact this.imp (fun h => by simpa using h)

theorem sortRecords_perm (rs : List Record) : (sortRecords rs).Perm rs :=
  List.mergeSort_perm rs _

theorem sortRecords_stable (rs : List Record) (k : Int) :
    (sortRecords rs).filter (fun r => decide (bandwidth r = k)) =
      rs.filter (fun r => decide (bandwidth r = k)) := by
  set p : Record → Bool := fun r => decide (bandwidth r = k) with hp
  have hmem : ∀ a ∈ rs.filter p, bandwidth a = k := by
    intro a ha
    have := List.of_mem_filter ha
    simpa [hp] using this
  have hpair : (rs.filter p).Pairwise
      (fun a b => (decide (bandwidth b ≤ bandwidth a)) = true) := by
    apply List.pairwise_of_forall_mem_list
    intro a ha b hb
    simp [hmem a ha, hmem b hb]
  have hsub : (rs.filter p).Sublist (sortRecords rs) :=
    List.sublist_mergeSort bwle_trans bwle_total hpair (List.filter_sublist rs)
  have hself : (rs.filter p).filter p = rs.filter p := by
    apply List.filter_eq_self.mpr
    intro a ha
    simp [hp, hmem a ha]
  have hsub2 : (rs.filter p).Sublist ((sortRecords rs).filter p) := by
    have := hsub.filter p
    rwa [hself] at this
  have hperm : ((sortRecords rs).filter p).Perm (rs.filter p) :=
    (sortRecords_perm rs).filter p
  exact (hsub2.eq_of_length hperm.length_eq.symm).symm

theorem sortRecords_nil : sortRecords [] = [] := by
  rw [sortRecords, List.mergeSort_nil]

theorem sortRecords_singleton (r : Record) : sortRecords [r] = [r] := by
  rw [sortRecords, List.mergeSort_singleton]

theorem hexDig_ascii : ∀ d : Nat, d < 16 → 32 ≤ (hexDig d).toNat ∧ (hexDig d).toNat ≤ 126 := by
  decide

theorem hex4_ascii (n : Nat) : ∀ c ∈ hex4 n, 32 ≤ c.toNat ∧ c.toNat ≤ 126 := by
  intro c hc
  rw [hex4] at hc
  simp at hc
  rcases hc with rfl | rfl | rfl | rfl <;>
    exact hexDig_ascii _ (Nat.mod_lt _ (by norm_num))

theorem escChar_ascii (c : Char) : ∀ c2 ∈ escChar c, 32 ≤ c2.toNat ∧ c2.toNat ≤ 126 := by
  intro c2 hm
  rw [escChar] at hm
  by_cases h1 : c = '"'
  · rw [if_pos h1] at hm
    simp at hm
    rcases hm with rfl | rfl <;> decide
  · rw [if_neg h1] at hm
    by_cases h2 : c = '\\'
    · rw [if_pos h2] at hm
      simp at hm
      rcases hm with rfl | rfl <;> decide
    · rw [if_neg h2] at hm
      by_cases h3 : c = '\n'
      · rw [if_pos h3] at hm
        simp at hm
        rcases hm with rfl | rfl <;> decide
      · rw [if_neg h3] at hm
        by_cases h4 : c = '\r'
        · rw [if_pos h4] at hm
          simp at hm
          rcases hm with rfl | rfl <;> decide
        · rw [if_neg h4] at hm
          by_cases h5 : c = '\t'
          · rw [if_pos h5] at hm
            simp at hm
            rcases hm with rfl | rfl <;> decide
          · rw [if_neg h5] at hm
            by_cases h6 : c.toNat = 8
            · rw [if_pos h6] at hm
              simp at hm
              rcases hm with rfl | rfl <;> decide
            · rw [if_neg h6] at hm
              by_cases h7 : c.toNat = 12
              · rw [if_pos h7] at hm
                simp at hm
                rcases hm with rfl | rfl <;> decide
              · rw [if_neg h7] at hm
                by_cases h8 : c.toNat < 32
                · rw [if_pos h8] at hm
                  simp at hm
                  rcases hm with rfl | rfl | hm
                  · decide
                  · decide
                  · exact hex4_ascii _ c2 hm
                · rw [if_neg h8] at hm
                  by_cases h9 : c.toNat ≤ 126
                  · rw [if_pos h9] at hm
                    simp at hm
                    subst hm
                    omega
                  · rw [if_neg h9] at hm
                    by_cases h10 : c.toNat < 65536
                    · rw [if_pos h10] at hm
                      simp at hm
                      rcases hm with rfl | rfl | hm
                      · decide
                      · decide
                      · exact hex4_ascii _ c2 hm
                    · rw [if_neg h10] at hm
                      simp at hm
                      rcases hm with rfl | rfl | hm | rfl | rfl | hm
                      · decide
                      · decide
                      · exact hex4_ascii _ c2 hm
                      · decide
                      · decide
                      · exact hex4_ascii _ c2 hm

theorem escBody_ascii (cs : List Char) : ∀ c ∈ escBody cs, 32 ≤ c.toNat ∧ c.toNat ≤ 126 := by
  induction cs with
  | nil => simp [escBody]
  | cons c cs ih =>
    intro c2 hm
    rw [escBody] at hm
    rw [List.mem_append] at hm
    cases hm with
    | inl h => exact escChar_ascii c c2 h
    | inr h => exact ih c2 h

theorem natDigits_ascii (n : Nat) : ∀ c ∈ natDigits n, 32 ≤ c.toNat ∧ c.toNat ≤ 126 := by
  intro c hc
  have := natDigits_isDigit n c hc
  have h1 : c ≠ ' ' → True := fun _ => trivial
  revert this
  rw [Char.isDigit]
  intro hdg
  simp at hdg
  have hv1 : 48 ≤ c.toNat := by
    have := hdg.1
    simpa [Char.le_def, Char.toNat] using this
  have hv2 : c.toNat ≤ 57 := by
    have := hdg.2
    simpa [Char.le_def, Char.toNat] using this
  omega

theorem intChars_ascii (i : Int) : ∀ c ∈ intChars i, 32 ≤ c.toNat ∧ c.toNat ≤ 126 := by
  intro c hc
  rw [intChars] at hc
  split at hc
  · simp at hc
    rcases hc with rfl | hc
    · decide
    · exact natDigits_ascii _ c hc
  · exact natDigits_ascii _ c hc

theorem dumpStr_ascii (s : String) : ∀ c ∈ dumpStr s, 32 ≤ c.toNat ∧ c.toNat ≤ 126 := by
  intro c hc
  rw [dumpStr] at hc
  simp at hc
  rcases hc with rfl | hc | rfl
  · decide
  · exact escBody_ascii _ c hc
  · decide

theorem dumpRecord_ascii (r : Record) : ∀ c ∈ dumpRecord r, 32 ≤ c.toNat ∧ c.toNat ≤ 126 := by
  intro c hc
  rw [dumpRecord, dumpRecordBody] at hc
  simp at hc
  rcases hc with rfl | hc | rfl | rfl | hc | rfl | rfl | hc | rfl | rfl | hc | rfl | rfl | hc |
    rfl | rfl | hc | rfl | rfl | hc | rfl | rfl | hc | rfl
  all_goals first
    | decide
    | exact dumpStr_ascii _ c hc
    | exact escBody_ascii _ c hc
    | exact intChars_ascii _ c hc

theorem restBody_ascii (rs : List Record) : ∀ c ∈ restBody rs, 32 ≤ c.toNat ∧ c.toNat ≤ 126 := by
  induction rs with
  | nil => simp [restBody]
  | cons r rs ih =>
    intro c hc
    rw [restBody] at hc
    simp at hc
    rcases hc with rfl | rfl | hc | hc
    · decide
    · decide
    · exact dumpRecord_ascii r c hc
    · exact ih c hc

theorem dumpsChars_ascii (rs : List Record) :
    ∀ c ∈ dumpsChars rs, 32 ≤ c.toNat ∧ c.toNat ≤ 126 := by
  intro c hc
  rw [dumpsChars] at hc
  simp at hc
  rcases hc with rfl | hc | rfl
  · decide
  · rw [dumpsBody.eq_def] at hc
    split at hc
    · simp at hc
    · rename_i r rs2
      rw [List.mem_append] at hc
      cases hc with
      | inl h => exact dumpRecord_ascii r c h
      | inr h => exact restBody_ascii rs2 c h
  · decide

theorem dumps_ascii (rs : List Record) :
    ∀ c ∈ (dumps rs).data, 32 ≤ c.toNat ∧ c.toNat ≤ 126 := by
  intro c hc
  rw [dumps, data_asString] at hc
  exact dumpsChars_ascii rs c hc

/-- The text `main` writes to `frequencies.json`, when it terminates
normally. -/
def outputText (input : List String) : Option String :=
  match run input with
  | none => none
  | some (o, _) => some (dumps o)

theorem processLine_eq_def (l : String) :
    processLine l =
      (if (splitStar l.data).length > 7 then
        match pyInt ((splitStar l.data).getD 1 []), pyInt ((splitStar l.data).getD 2 []) with
        | some freqStart, some freqStop =>
          if freqStart ≠ 0 ∨ freqStop ≠ 0 then
            .kept ⟨((splitStar l.data).getD 0 []).asString, freqStart, freqStop,
              ((splitStar l.data).getD 7 []).asString⟩
          else
            .skipped ⟨((splitStar l.data).getD 0 []).asString, freqStart, freqStop,
              ((splitStar l.data).getD 7 []).asString⟩
        | _, _ => .parseFail
      else .short) := rfl

theorem processLine_parseFail_left (l : String)
    (hlen : (splitStar l.data).length > 7)
    (h1 : pyInt ((splitStar l.data).getD 1 []) = none) :
    processLine l = .parseFail := by
  rw [processLine_eq_def, if_pos hlen, h1]

theorem processLine_parseFail_right (l : String) {a : Int}
    (hlen : (splitStar l.data).length > 7)
    (h1 : pyInt ((splitStar l.data).getD 1 []) = some a)
    (h2 : pyInt ((splitStar l.data).getD 2 []) = none) :
    processLine l = .parseFail := by
  rw [processLine_eq_def, if_pos hlen, h1, h2]

theorem processLine_kept (l : String) {a b : Int}
    (hlen : (splitStar l.data).length > 7)
    (h1 : pyInt ((splitStar l.data).getD 1 []) = some a)
    (h2 : pyInt ((splitStar l.data).getD 2 []) = some b)
    (hz : a ≠ 0 ∨ b ≠ 0) :
    processLine l = .kept ⟨((splitStar l.data).getD 0 []).asString, a, b,
      ((splitStar l.data).getD 7 []).asString⟩ := by
  rw [processLine_eq_def, if_pos hlen, h1, h2]
  simp [hz]

theorem processLine_skipped (l : String)
    (hlen : (splitStar l.data).length > 7)
    (h1 : pyInt ((splitStar l.data).getD 1 []) = some 0)
    (h2 : pyInt ((splitStar l.data).getD 2 []) = some 0) :
    processLine l = .skipped ⟨((splitStar l.data).getD 0 []).asString, 0, 0,
      ((splitStar l.data).getD 7 []).asString⟩ := by
  rw [processLine_eq_def, if_pos hlen, h1, h2]
  simp

theorem processLine_skipped_inv (l : String) (r : Record)
    (h : processLine l = .skipped r) :
    (splitStar l.data).length > 7 ∧
      pyInt ((splitStar l.data).getD 1 []) = some 0 ∧
      pyInt ((splitStar l.data).getD 2 []) = some 0 ∧
      r = ⟨((splitStar l.data).getD 0 []).asString, 0, 0,
        ((splitStar l.data).getD 7 []).asString⟩ := by
  by_cases hlen : (splitStar l.data).length > 7
  · cases h1 : pyInt ((splitStar l.data).getD 1 []) with
    | none =>
      rw [processLine_parseFail_left l hlen h1] at h
      exact absurd h (by simp)
    | some a =>
      cases h2 : pyInt ((splitStar l.data).getD 2 []) with
      | none =>
        rw [processLine_parseFail_right l hlen h1 h2] at h
        exact absurd h (by simp)
      | some b =>
        by_cases hz : a ≠ 0 ∨ b ≠ 0
        · rw [processLine_kept l hlen h1 h2 hz] at h
          exact absurd h (by simp)
        · push_neg at hz
          obtain ⟨hza, hzb⟩ := hz
          subst hza
          subst hzb
          rw [processLine_skipped l hlen h1 h2] at h
          injection h with h3
          exact ⟨hlen, rfl, rfl, h3.symm⟩
  · rw [processLine_eq_def, if_neg hlen] at h
    exact absurd h (by simp)

theorem processLine_parseFail_iff (l : String) :
    processLine l = .parseFail ↔
      ((splitStar l.data).length > 7 ∧
        (pyInt ((splitStar l.data).getD 1 []) = none ∨
          pyInt ((splitStar l.data).getD 2 []) = none)) := by
  constructor
  · intro h
    rw [processLine_eq_def] at h
    by_cases hlen : (splitStar l.data).length > 7
    · rw [if_pos hlen] at h
      refine ⟨hlen, ?_⟩
      cases h1 : pyInt ((splitStar l.data).getD 1 []) with
      | none => exact Or.inl rfl
      | some a =>
        cases h2 : pyInt ((splitStar l.data).getD 2 []) with
        | none => exact Or.inr rfl
        | some b =>
          rw [h1, h2] at h
          exfalso
          by_cases hz : a ≠ 0 ∨ b ≠ 0
          · simp [hz] at h
          · simp [hz] at h
    · rw [if_neg hlen] at h
      simp at h
  · intro ⟨hlen, hor⟩
    cases hor with
    | inl h1 => exact processLine_parseFail_left l hlen h1
    | inr h2 =>
      cases h1 : pyInt ((splitStar l.data).getD 1 []) with
      | none => exact processLine_parseFail_left l hlen h1
      | some a => exact processLine_parseFail_right l hlen h1 h2

/-- Claim C1: for every input line, splitting on `*` yields exactly one
output record if and only if the line has at least 8 fields and its
parsed `freqStart` and `freqStop` are not both zero; a line failing
either condition contributes no record. -/
theorem c1_record_retention_iff (l : String) :
    (∃ r, lineOut l = some r) ↔
      (8 ≤ (splitStar l.data).length ∧
        ∃ a b : Int, pyInt ((splitStar l.data).getD 1 []) = some a ∧
          pyInt ((splitStar l.data).getD 2 []) = some b ∧ ¬(a = 0 ∧ b = 0)) := by
  constructor
  · intro ⟨r, hr⟩
    rw [lineOut] at hr
    by_cases hlen : (splitStar l.data).length > 7
    · cases h1 : pyInt ((splitStar l.data).getD 1 []) with
      | none =>
        rw [processLine_parseFail_left l hlen h1] at hr
        simp at hr
      | some a =>
        cases h2 : pyInt ((splitStar l.data).getD 2 []) with
        | none =>
          rw [processLine_parseFail_right l hlen h1 h2] at hr
          simp at hr
        | some b =>
          by_cases hz : a ≠ 0 ∨ b ≠ 0
          · exact ⟨by omega, a, b, rfl, rfl, by tauto⟩
          · rw [processLine_eq_def, if_pos hlen, h1, h2] at hr
            simp [hz] at hr
    · rw [processLine_eq_def, if_neg hlen] at hr
      simp at hr
  · intro ⟨h8, a, b, h1, h2, hz⟩
    exact ⟨⟨((splitStar l.data).getD 0 []).asString, a, b,
      ((splitStar l.data).getD 7 []).asString⟩,
      by rw [lineOut, processLine_kept l (by omega) h1 h2 (by tauto)]⟩

/-- Claim C4: a line with at least 8 fields whose parsed frequencies are
both zero produces no output record and exactly one `Skipping:`
diagnostic; every other line produces no diagnostic. -/
theorem c4_zero_zero_diagnostic (l : String) :
    ((8 ≤ (splitStar l.data).length ∧
        pyInt ((splitStar l.data).getD 1 []) = some 0 ∧
        pyInt ((splitStar l.data).getD 2 []) = some 0) →
      processLines [l] = some ([], ["Skipping: " ++ pyStrRecord
        ⟨((splitStar l.data).getD 0 []).asString, 0, 0,
          ((splitStar l.data).getD 7 []).asString⟩])) ∧
    (¬(8 ≤ (splitStar l.data).length ∧
        pyInt ((splitStar l.data).getD 1 []) = some 0 ∧
        pyInt ((splitStar l.data).getD 2 []) = some 0) →
      ∀ o d, processLines [l] = some (o, d) → d = []) := by
  constructor
  · intro ⟨h8, h1, h2⟩
    have hp := processLine_skipped l (by omega) h1 h2
    simp [processLines, hp]
  · intro hne o d hsome
    cases hp : processLine l with
    | short => simp [processLines, hp] at hsome; exact hsome.2
    | parseFail => simp [processLines, hp] at hsome
    | kept r => simp [processLines, hp] at hsome; exact hsome.2
    | skipped r =>
      obtain ⟨hlen, h1, h2, -⟩ := processLine_skipped_inv l r hp
      exact absurd ⟨by omega, h1, h2⟩ hne

/-- Claim C5: the conversion aborts with an uncaught parse error exactly
when some line has at least 8 fields and a frequency field that does
not parse as a base-10 integer. -/
theorem c5_parse_error_iff (ls : List String) :
    processLines ls = none ↔
      ∃ l ∈ ls, 8 ≤ (splitStar l.data).length ∧
        (pyInt ((splitStar l.data).getD 1 []) = none ∨
          pyInt ((splitStar l.data).getD 2 []) = none) := by
  rw [processLines_none_iff]
  constructor
  · intro ⟨l, hm, hp⟩
    obtain ⟨hlen, hor⟩ := (processLine_parseFail_iff l).mp hp
    exact ⟨l, hm, by omega, hor⟩
  · intro ⟨l, hm, h8, hor⟩
    exact ⟨l, hm, (processLine_parseFail_iff l).mpr ⟨by omega, hor⟩⟩

/-- Claim C6: a line with fewer than 8 fields is skipped silently: the
loop body yields `short` whatever the field contents, so no record, no
parse attempt, and no diagnostic. -/
theorem c6_short_line_silent (l : String) (h : (splitStar l.data).length < 8) :
    processLine l = .short ∧ processLines [l] = some ([], []) := by
  have hp : processLine l = .short := by
    rw [processLine_eq_def, if_neg (by omega)]
  exact ⟨hp, by simp [processLines, hp]⟩

theorem run_eq_some {input : List String} {o : List Record} {d : List String}
    (hp : processLines input = some (o, d)) : run input = some (sortRecords o, d) := by
  rw [run.eq_def, hp]

/-- Claim C2: the output array is the stable sort of the retained records
by `freqStop - freqStart` descending: adjacent (indeed all) pairs are in
weakly decreasing bandwidth order, and records of equal bandwidth keep
their relative input order. -/
theorem c2_sorted_stable (input : List String) (o : List Record) (d : List String)
    (h : run input = some (o, d)) :
    ∃ retained, processLines input = some (retained, d) ∧ o = sortRecords retained ∧
      o.Pairwise (fun a b : Record => bandwidth b ≤ bandwidth a) ∧
      ∀ k : Int, o.filter (fun r => decide (bandwidth r = k)) =
        retained.filter (fun r => decide (bandwidth r = k)) := by
  rw [run.eq_def] at h
  split at h
  · exact absurd h (by simp)
  · rename_i o0 d0 hp
    simp only [Option.some.injEq, Prod.mk.injEq] at h
    obtain ⟨ho, hd⟩ := h
    subst ho
    subst hd
    exact ⟨o0, hp, rfl, sortRecords_pairwise o0, fun k => sortRecords_stable o0 k⟩

theorem c2_sorted_stable_witness :
    ∃ retained, processLines ["A*1*2*x*y*z*w*u", "B*1*9*x*y*z*w*v"] = some (retained, []) ∧
      [(⟨"B", 1, 9, "v"⟩ : Record), ⟨"A", 1, 2, "u"⟩] = sortRecords retained ∧
      List.Pairwise (fun a b : Record => bandwidth b ≤ bandwidth a)
        [(⟨"B", 1, 9, "v"⟩ : Record), ⟨"A", 1, 2, "u"⟩] ∧
      ∀ k : Int, List.filter (fun r => decide (bandwidth r = k))
          [(⟨"B", 1, 9, "v"⟩ : Record), ⟨"A", 1, 2, "u"⟩] =
        retained.filter (fun r => decide (bandwidth r = k)) := by
  apply c2_sorted_stable ["A*1*2*x*y*z*w*u", "B*1*9*x*y*z*w*v"]
  have hp : processLines ["A*1*2*x*y*z*w*u", "B*1*9*x*y*z*w*v"] =
      some ([⟨"A", 1, 2, "u"⟩, ⟨"B", 1, 9, "v"⟩], []) := by decide
  have hs : sortRecords [(⟨"A", 1, 2, "u"⟩ : Record), ⟨"B", 1, 9, "v"⟩] =
      [⟨"B", 1, 9, "v"⟩, ⟨"A", 1, 2, "u"⟩] := by
    have := sortRecords_stable [(⟨"A", 1, 2, "u"⟩ : Record), ⟨"B", 1, 9, "v"⟩]
    have hperm := sortRecords_perm [(⟨"A", 1, 2, "u"⟩ : Record), ⟨"B", 1, 9, "v"⟩]
    have hpair := sortRecords_pairwise [(⟨"A", 1, 2, "u"⟩ : Record), ⟨"B", 1, 9, "v"⟩]
    have hlen := hperm.length_eq
    match hm : sortRecords [(⟨"A", 1, 2, "u"⟩ : Record), ⟨"B", 1, 9, "v"⟩] with
    | [] => rw [hm] at hlen; simp at hlen
    | [x] => rw [hm] at hlen; simp at hlen
    | [x, y] =>
      rw [hm] at hperm hpair
      have hxm := hperm.mem_iff (a := x)
      have hym := hperm.mem_iff (a := y)
      simp at hxm hym
      rcases hxm with rfl | rfl
      · rcases hym with rfl | rfl
        · exfalso
          have hnd := hperm.symm.nodup (by decide)
          simp at hnd
        · exfalso
          simp [bandwidth] at hpair
      · rcases hym with rfl | rfl
        · rfl
        · exfalso
          have hnd := hperm.symm.nodup (by decide)
          simp at hnd
    | x :: y :: z :: rest => rw [hm] at hlen; simp at hlen
  have hr := run_eq_some hp
  rw [hs] at hr
  exact hr

/-- Claim C3 counterexample: on the example line the code keeps the line
terminator inside the eighth field, so the `url` of the produced entry is
`"http://example.com/fm\n"`, not the claimed `"http://example.com/fm"`. -/
theorem c3_example_line_counterexample :
    run ["FM Radio*88000000*108000000*Broadcast*x*x*x*http://example.com/fm\n"] =
      some ([⟨"FM Radio", 88000000, 108000000, "http://example.com/fm\n"⟩], []) ∧
    ¬ run ["FM Radio*88000000*108000000*Broadcast*x*x*x*http://example.com/fm\n"] =
      some ([⟨"FM Radio", 88000000, 108000000, "http://example.com/fm"⟩], []) := by
  have hp : processLines ["FM Radio*88000000*108000000*Broadcast*x*x*x*http://example.com/fm\n"] =
      some ([⟨"FM Radio", 88000000, 108000000, "http://example.com/fm\n"⟩], []) := by decide
  have hrun : run ["FM Radio*88000000*108000000*Broadcast*x*x*x*http://example.com/fm\n"] =
      some ([⟨"FM Radio", 88000000, 108000000, "http://example.com/fm\n"⟩], []) := by
    have hr := run_eq_some hp
    rwa [sortRecords_singleton] at hr
  refine ⟨hrun, fun hc => ?_⟩
  rw [hrun] at hc
  exact absurd hc (by decide)

/-- Claim C3 amended: the example line produces exactly one entry, whose
`url` field retains the trailing newline of the source line, since the
code splits the raw line without stripping the terminator. -/
theorem c3_example_line_amended :
    run ["FM Radio*88000000*108000000*Broadcast*x*x*x*http://example.com/fm\n"] =
      some ([⟨"FM Radio", 88000000, 108000000, "http://example.com/fm\n"⟩], []) := by
  have hp : processLines ["FM Radio*88000000*108000000*Broadcast*x*x*x*http://example.com/fm\n"] =
      some ([⟨"FM Radio", 88000000, 108000000, "http://example.com/fm\n"⟩], []) := by decide
  have hr := run_eq_some hp
  rwa [sortRecords_singleton] at hr

/-- Claim C7: parsing the serialized output recovers an array of objects,
one per retained record in order, each with exactly the four keys
`description`, `freqStart`, `freqStop`, `url` in that (lexicographic)
order and with values equal to the fields of the record. -/
theorem c7_roundtrip (input : List String) (o : List Record) (d : List String)
    (h : run input = some (o, d)) :
    parseJson (dumps o) = some (o.map recordJson) ∧
      List.Chain' (fun a b : String => a < b)
        ["description", "freqStart", "freqStop", "url"] := by
  refine ⟨parseJson_dumps o, ?_⟩
  simp only [List.chain'_cons, List.chain'_singleton, and_true]
  refine ⟨?_, ?_, ?_⟩ <;> (rw [String.lt_iff_toList_lt]; decide)

theorem c7_roundtrip_witness :
    parseJson (dumps [(⟨"X", 1, 2, "u"⟩ : Record)]) =
      some ([(⟨"X", 1, 2, "u"⟩ : Record)].map recordJson) ∧
      List.Chain' (fun a b : String => a < b)
        ["description", "freqStart", "freqStop", "url"] := by
  apply c7_roundtrip ["X*1*2*a*b*c*d*u"] _ []
  have hp : processLines ["X*1*2*a*b*c*d*u"] = some ([⟨"X", 1, 2, "u"⟩], []) := by decide
  have hr := run_eq_some hp
  rwa [sortRecords_singleton] at hr

/-- Claim C8: the serialized output is a single compact line: the written
text contains no newline, carriage return or tab anywhere (string values
are escaped), hence no indentation. -/
theorem c8_compact_output (input : List String) (o : List Record) (d : List String)
    (h : run input = some (o, d)) :
    '\n' ∉ (dumps o).data ∧ '\r' ∉ (dumps o).data ∧ '\t' ∉ (dumps o).data := by
  refine ⟨fun hc => ?_, fun hc => ?_, fun hc => ?_⟩ <;>
    exact absurd (dumps_ascii o _ hc).1 (by decide)

theorem c8_compact_output_witness :
    '\n' ∉ (dumps [(⟨"a\nb", 1, 2, "u\tv"⟩ : Record)]).data ∧
    '\r' ∉ (dumps [(⟨"a\nb", 1, 2, "u\tv"⟩ : Record)]).data ∧
    '\t' ∉ (dumps [(⟨"a\nb", 1, 2, "u\tv"⟩ : Record)]).data := by
  apply c8_compact_output ["a\nb*1*2*x*y*z*w*u\tv"] _ []
  have hp : processLines ["a\nb*1*2*x*y*z*w*u\tv"] =
      some ([⟨"a\nb", 1, 2, "u\tv"⟩], []) := by decide
  have hr := run_eq_some hp
  rwa [sortRecords_singleton] at hr

/-- Claim C9: an empty input, and more generally any input whose lines are
all dropped (too few fields, or the zero-zero skip), makes the program
write the JSON text `[]`. -/
theorem c9_empty_array :
    outputText [] = some "[]" ∧
    ∀ ls : List String,
      (∀ l ∈ ls, lineOut l = none ∧ processLine l ≠ .parseFail) →
      outputText ls = some "[]" := by
  constructor
  · have hr := @run_eq_some [] [] [] rfl
    rw [sortRecords_nil] at hr
    rw [outputText, hr]
    rfl
  · intro ls h
    have hp := processLines_eq ls (fun l hm => (h l hm).2)
    have hnone : ls.filterMap lineOut = [] := by
      rw [List.filterMap_eq_nil_iff]
      intro l hm
      exact (h l hm).1
    rw [hnone] at hp
    have hr := run_eq_some hp
    rw [sortRecords_nil] at hr
    rw [outputText, hr]
    rfl

theorem c9_empty_array_witness :
    outputText ["a*b", "Z*0*0*c*d*e*f*g"] = some "[]" :=
  c9_empty_array.2 ["a*b", "Z*0*0*c*d*e*f*g"] (by decide)

/-- Claim C10: no ordering between the bounds is enforced: a line with at
least 8 fields whose parsed `freqStop` is below `freqStart` is still
retained, its bandwidth is negative, and in the sorted output every
negative-bandwidth record comes after every record of nonnegative
bandwidth. -/
theorem c10_reversed_bounds (l : String) (a b : Int)
    (h8 : 8 ≤ (splitStar l.data).length)
    (h1 : pyInt ((splitStar l.data).getD 1 []) = some a)
    (h2 : pyInt ((splitStar l.data).getD 2 []) = some b)
    (hlt : b < a) :
    (processLine l = .kept ⟨((splitStar l.data).getD 0 []).asString, a, b,
        ((splitStar l.data).getD 7 []).asString⟩ ∧
      bandwidth ⟨((splitStar l.data).getD 0 []).asString, a, b,
        ((splitStar l.data).getD 7 []).asString⟩ < 0) ∧
    ∀ (rs : List Record) (i j : Fin (sortRecords rs).length),
      bandwidth ((sortRecords rs).get i) < 0 → 0 ≤ bandwidth ((sortRecords rs).get j) →
      (j : Nat) < (i : Nat) := by
  constructor
  · constructor
    · exact processLine_kept l (by omega) h1 h2 (by omega)
    · simp [bandwidth]
      omega
  · intro rs i j hbi hbj
    have hp := List.pairwise_iff_get.mp (sortRecords_pairwise rs)
    by_contra hc
    push_neg at hc
    rcases eq_or_lt_of_le hc with heq | hlt2
    · have : i = j := Fin.ext heq
      subst this
      omega
    · have := hp i j hlt2
      omega

theorem c10_reversed_bounds_witness :
    (processLine "X*5*3*q*w*e*r*u" = .kept ⟨"X", 5, 3, "u"⟩ ∧
      bandwidth ⟨"X", 5, 3, "u"⟩ < 0) ∧
    ∀ (rs : List Record) (i j : Fin (sortRecords rs).length),
      bandwidth ((sortRecords rs).get i) < 0 → 0 ≤ bandwidth ((sortRecords rs).get j) →
      (j : Nat) < (i : Nat) := by
  have h := c10_reversed_bounds "X*5*3*q*w*e*r*u" 5 3 (by decide) (by decide) (by decide)
    (by decide)
  exact ⟨⟨by exact h.1.1, by exact h.1.2⟩, h.2⟩

theorem c1_record_retention_iff_witness :
    ∃ r, lineOut "a*1*2*b*c*d*e*f" = some r :=
  (c1_record_retention_iff "a*1*2*b*c*d*e*f").mpr
    ⟨by decide, 1, 2, by decide, by decide, by decide⟩

theorem c4_zero_zero_diagnostic_witness :
    processLines ["Invalid*0*0*x*x*x*x*u"] = some ([], ["Skipping: " ++ pyStrRecord
      ⟨((splitStar "Invalid*0*0*x*x*x*x*u".data).getD 0 []).asString, 0, 0,
        ((splitStar "Invalid*0*0*x*x*x*x*u".data).getD 7 []).asString⟩]) :=
  (c4_zero_zero_diagnostic "Invalid*0*0*x*x*x*x*u").1 ⟨by decide, by decide, by decide⟩

theorem c5_parse_error_iff_witness :
    processLines ["a*x*2*b*c*d*e*f"] = none :=
  (c5_parse_error_iff ["a*x*2*b*c*d*e*f"]).mpr
    ⟨"a*x*2*b*c*d*e*f", by simp, by decide, Or.inl (by decide)⟩

theorem c6_short_line_silent_witness :
    processLine "a*b*c*d*e" = .short ∧ processLines ["a*b*c*d*e"] = some ([], []) :=
  c6_short_line_silent "a*b*c*d*e" (by decide)

example : splitStar "a*b\n".data = [['a'], ['b', '\n']] := by decide
example : splitStar "".data = [[]] := by decide
example : splitStar "a**b".data = [['a'], [], ['b']] := by decide
example : pyInt "  -42\t".data = some (-42) := by decide
example : pyInt "88000000".data = some 88000000 := by decide
example : pyInt "".data = none := by decide
example : pyInt "4x".data = none := by decide
example : pyInt "+7".data = some 7 := by decide
example : processLine "a*1*2*b*c*d*e*f" = .kept ⟨"a", 1, 2, "f"⟩ := by decide
example : processLine "a*0*0*b*c*d*e*f" = .skipped ⟨"a", 0, 0, "f"⟩ := by decide
example : processLine "a*1*2*b*c*d*e" = .short := by decide
example : processLine "a*x*2*b*c*d*e*f" = .parseFail := by decide

end Sigid
